import Mathlib

/-!
Shallow embedding of `src/bing.py` (vsalvino/bing-archive).

The script maintains a local archive of the Bing image-of-the-day feed:
it downloads new images from the XML archive API, stamps title/copyright
EXIF metadata into each stored file, and regenerates a static site
(day pages, month index pages, home page) from the images directory.

Conventions of the embedding:
* Python strings are `String` / `List Char`; machine I/O is explicit state
  passing over association lists (filename to file record).
* Fallible Python code (raising exceptions) is modelled with `Option` /
  `Except PyErr`.
* Rendering templates (jinja2) is an external collaborator per the spec;
  a rendered page is modelled by the record of inputs passed to the
  template, which is what the claims are about.
-/

/-- Python exception kinds that the modelled code can raise. -/
inductive PyErr
  | valueError
  | indexError
  | keyError
  | parseError
  | attributeError
  | fileNotFoundError
deriving DecidableEq, Repr

/-- Calendar date as produced by `time.strptime(stem, "%Y%m%d")`
(`tm_year`, `tm_mon`, `tm_mday`). -/
structure Date where
  y : Nat
  m : Nat
  d : Nat
deriving DecidableEq, Repr

/-- Decimal digit value of a digit character. -/
def digitVal (c : Char) : Nat := c.toNat - 48

/-- Decimal digit character for `n % 10`-style arguments (0..9). -/
def digitChar : Nat → Char
  | 0 => '0'
  | 1 => '1'
  | 2 => '2'
  | 3 => '3'
  | 4 => '4'
  | 5 => '5'
  | 6 => '6'
  | 7 => '7'
  | 8 => '8'
  | _ => '9'

/-- Decimal rendering of a year (`str(tm_year)`), for years below 10000 —
which is all `parseStem` can produce, since `%Y` matches exactly four
digits. -/
def yearStr (n : Nat) : String :=
  if n < 10 then ⟨[digitChar n]⟩
  else if n < 100 then ⟨[digitChar (n / 10), digitChar (n % 10)]⟩
  else if n < 1000 then ⟨[digitChar (n / 100), digitChar (n / 10 % 10), digitChar (n % 10)]⟩
  else ⟨[digitChar (n / 1000 % 10), digitChar (n / 100 % 10), digitChar (n / 10 % 10),
         digitChar (n % 10)]⟩

/-- Two-digit zero-padded rendering (`f"{n:02d}"` for `n ≤ 99`). -/
def pad2 (n : Nat) : String := ⟨[digitChar (n / 10 % 10), digitChar (n % 10)]⟩

/-- Gregorian leap-year rule, as used by `datetime.date`. -/
def isLeapYear (y : Nat) : Bool := (y % 4 == 0 && y % 100 != 0) || y % 400 == 0

/-- Number of days of month `m` of year `y` (`datetime.date` validation). -/
def daysInMonth (y m : Nat) : Nat :=
  if m = 2 then (if isLeapYear y then 29 else 28)
  else if m = 4 ∨ m = 6 ∨ m = 9 ∨ m = 11 then 30
  else 31

/-- CPython `_strptime` month pattern `1[0-2]|0[1-9]` (the two-character
alternatives of `%m`). -/
def matchMonth2 (a b : Char) : Option Nat :=
  if a = '1' ∧ (b = '0' ∨ b = '1' ∨ b = '2') then some (10 + digitVal b)
  else if a = '0' ∧ ('1' ≤ b ∧ b ≤ '9') then some (digitVal b)
  else none

/-- CPython `_strptime` one-character numeric alternative `[1-9]`
(shared by `%m` and `%d`). -/
def matchNum1to9 (a : Char) : Option Nat :=
  if '1' ≤ a ∧ a ≤ '9' then some (digitVal a) else none

/-- CPython `_strptime` day pattern two-character alternatives
`3[01]|[12]\d|0[1-9]` of `%d`. -/
def matchDay2 (a b : Char) : Option Nat :=
  if a = '3' ∧ (b = '0' ∨ b = '1') then some (30 + digitVal b)
  else if (a = '1' ∨ a = '2') ∧ b.isDigit then some (10 * digitVal a + digitVal b)
  else if a = '0' ∧ ('1' ≤ b ∧ b ≤ '9') then some (digitVal b)
  else none

/-- Match `%d` against the whole remaining input. `time.strptime` raises
`ValueError` when unconverted data remains, so the day must consume
everything left; a two-character remainder can only be consumed by the
two-character alternatives. -/
def matchDayAll : List Char → Option Nat
  | [a] => matchNum1to9 a
  | [a, b] => matchDay2 a b
  | _ => none

/-- Match `%m%d` against the remaining input after the year, with the
regex preference order of CPython `_strptime` (two-character month
alternatives first, backtracking to the one-character month when the rest
cannot be consumed). -/
def parseMD (cs : List Char) : Option (Nat × Nat) :=
  match cs with
  | a :: b :: rest =>
    (match matchMonth2 a b, matchDayAll rest with
     | some m, some d => some (m, d)
     | _, _ =>
       match matchNum1to9 a, matchDayAll (b :: rest) with
       | some m, some d => some (m, d)
       | _, _ => none)
  | _ => none

/-- Model of `time.strptime(stem, "%Y%m%d")` from `BingImage.__init__`
(line 56): `%Y` matches exactly four digits, then `%m%d` must consume the
rest, then the month/day pair is validated by `datetime.date` (CPython
`_strptime` constructs a `datetime.date` to compute the julian day, which
raises `ValueError` on an out-of-range day or year 0). `none` models the
raised `ValueError`. -/
def parseStem (s : String) : Option Date :=
  match s.data with
  | y1 :: y2 :: y3 :: y4 :: rest =>
    if y1.isDigit && y2.isDigit && y3.isDigit && y4.isDigit then
      let y := digitVal y1 * 1000 + digitVal y2 * 100 + digitVal y3 * 10 + digitVal y4
      match parseMD rest with
      | some (m, d) => if 1 ≤ y ∧ d ≤ daysInMonth y m then some ⟨y, m, d⟩ else none
      | none => none
    else none
  | _ => none

/-- Index of the last `'.'` in a character list, if any. -/
def lastDotIndex (cs : List Char) : Option Nat :=
  match cs.reverse.findIdx? (fun c => c = '.') with
  | none => none
  | some j => some (cs.length - 1 - j)

/-- Model of `pathlib.PurePath.stem`: the file name without its suffix,
where the suffix is the part from the last `'.'` provided that dot is
neither the first nor the last character. -/
def stemOf (name : String) : String :=
  match lastDotIndex name.data with
  | some i => if 0 < i ∧ i < name.data.length - 1 then ⟨name.data.take i⟩ else name
  | none => name

/-- English month name table (`strftime "%B"`). -/
def monthName : Nat → String
  | 1 => "January"
  | 2 => "February"
  | 3 => "March"
  | 4 => "April"
  | 5 => "May"
  | 6 => "June"
  | 7 => "July"
  | 8 => "August"
  | 9 => "September"
  | 10 => "October"
  | 11 => "November"
  | _ => "December"

/-- Model of `BingImage.display_month` (`strftime("%B %Y", date)`). -/
def display_month (dt : Date) : String := monthName dt.m ++ " " ++ yearStr dt.y

/-- Model of `BingImage.html_month_path`
(`dir_www / str(year) / f"{mon:02d}" / "index.html"`). -/
def html_month_path (dt : Date) : String :=
  "www/" ++ yearStr dt.y ++ "/" ++ pad2 dt.m ++ "/index.html"

/-- Model of `BingImage.html_path`
(`dir_www / str(year) / f"{mon:02d}" / f"{mday:02d}.html"`). -/
def html_day_path (dt : Date) : String :=
  "www/" ++ yearStr dt.y ++ "/" ++ pad2 dt.m ++ "/" ++ pad2 dt.d ++ ".html"

/-- Lexicographic comparison of character lists by code point, the order
Python uses to compare the path strings in `sorted(dir_img.iterdir())`. -/
def charListLe : List Char → List Char → Bool
  | [], _ => true
  | _ :: _, [] => false
  | a :: as, b :: bs => if a < b then true else if b < a then false else charListLe as bs

/-- String comparison by code points, as in Python `sorted`. -/
def strLe (a b : String) : Bool := charListLe a.data b.data

/-- Propositional form of `strLe`, used as the sorting relation. -/
def strLeP (a b : String) : Prop := strLe a b = true

instance : DecidableRel strLeP := fun a b => inferInstanceAs (Decidable (strLe a b = true))

theorem charListLe_refl : ∀ as, charListLe as as = true := by
  intro as
  induction as with
  | nil => rfl
  | cons a as ih => simp [charListLe, lt_irrefl, ih]

theorem charListLe_total : ∀ as bs, charListLe as bs = true ∨ charListLe bs as = true := by
  intro as
  induction as with
  | nil => intro bs; left; rfl
  | cons a as ih =>
    intro bs
    cases bs with
    | nil => right; rfl
    | cons b bs =>
      rcases lt_trichotomy a b with h | h | h
      · left; simp [charListLe, h]
      · subst h
        rcases ih bs with h2 | h2
        · left; simp [charListLe, lt_irrefl, h2]
        · right; simp [charListLe, lt_irrefl, h2]
      · right; simp [charListLe, h]

theorem charListLe_trans :
    ∀ as bs cs, charListLe as bs = true → charListLe bs cs = true →
      charListLe as cs = true := by
  intro as
  induction as with
  | nil => intro bs cs _ _; rfl
  | cons a as ih =>
    intro bs cs h1 h2
    cases bs with
    | nil => simp [charListLe] at h1
    | cons b bs =>
      cases cs with
      | nil => simp [charListLe] at h2
      | cons c cs =>
        rcases lt_trichotomy a b with hab | hab | hab
        · rcases lt_trichotomy b c with hbc | hbc | hbc
          · simp [charListLe, lt_trans hab hbc]
          · subst hbc; simp [charListLe, hab]
          · simp [charListLe, hbc, asymm hbc] at h2
        · subst hab
          rcases lt_trichotomy a c with hac | hac | hac
          · simp [charListLe, hac]
          · subst hac
            simp [charListLe, lt_irrefl] at h1 h2 ⊢
            exact ih _ _ h1 h2
          · simp [charListLe, hac, asymm hac] at h2
        · simp [charListLe, hab, asymm hab] at h1

instance : IsTotal String strLeP :=
  ⟨fun a b => charListLe_total a.data b.data⟩

instance : IsTrans String strLeP :=
  ⟨fun a b c => charListLe_trans a.data b.data c.data⟩

theorem strLe_refl (a : String) : strLe a a = true := charListLe_refl a.data

/-- Model of Python `sorted(dir_img.iterdir())`: the directory's file
names in code-point order (the paths share the `www/images/` prefix, so
path order is file-name order). -/
def pySortedNames (files : List String) : List String :=
  List.insertionSort strLeP files

/-- Inputs the `month.html` template is rendered with, plus the path the
page is written to (`imgs[-1].html_month_path`). `nextImg`/`prevImg` are
the `next_img`/`prev_img` context fields. -/
structure MonthPage where
  path : String
  imgs : List Date
  displayDate : String
  nextImg : Option Date
  prevImg : Option Date
deriving DecidableEq, Repr

/-- Result of one rebuild pass: day pages written (identified by their
image's date), month pages written, the image the home page is rendered
from, and the exception aborting the pass, if any. -/
structure SiteOutput where
  dayPages : List Date
  monthPages : List MonthPage
  homeImg : Option Date
  err : Option PyErr
deriving DecidableEq, Repr

/-- Model of the site-generation pass of `bing.py` lines 176-246: the
scan loop over the sorted directory listing, with loop state
`curr_date` / `imgs` / `prev_month_img` and the pages written so far.
For each file the date is parsed in `BingImage.__init__` (a failing parse
raises `ValueError` and aborts the pass); its day page is written; then
the month-boundary check either appends to the open bucket or flushes the
bucket as a month page.  After the loop, `imgs[-1]` is evaluated
unconditionally for the final month page — an `IndexError` when the
bucket is empty — and the home page is rendered from `imgs[-1]`. -/
def rebuildLoop : List String → Option Date → List Date → Option Date → List Date →
    List MonthPage → SiteOutput
  | [], _, imgs, prevMonthImg, days, months =>
    match imgs.getLast? with
    | none => ⟨days, months, none, some .indexError⟩
    | some lastI =>
      ⟨days, months ++ [⟨html_month_path lastI, imgs, display_month lastI, none, prevMonthImg⟩],
        some lastI, none⟩
  | p :: ps, currDate, imgs, prevMonthImg, days, months =>
    match parseStem (stemOf p) with
    | none => ⟨days, months, none, some .valueError⟩
    | some dt =>
      let curr := currDate.getD dt
      if dt.y = curr.y ∧ dt.m = curr.m then
        rebuildLoop ps (some curr) (imgs ++ [dt]) prevMonthImg (days ++ [dt]) months
      else
        match imgs.getLast? with
        | none => ⟨days ++ [dt], months, none, some .indexError⟩
        | some lastI =>
          rebuildLoop ps (some dt) [dt] (some lastI) (days ++ [dt])
            (months ++ [⟨html_month_path lastI, imgs, display_month lastI, some dt, prevMonthImg⟩])

/-- Model of one full rebuild pass over the images directory. -/
def rebuild (files : List String) : SiteOutput :=
  rebuildLoop (pySortedNames files) none [] none [] []

/-- Split a character list on a single separator character, as Python
`str.split(sep)` does for a one-character separator: `n` separators give
`n+1` (possibly empty) parts. -/
def splitChar (sep : Char) : List Char → List (List Char)
  | [] => [[]]
  | c :: cs =>
    let r := splitChar sep cs
    if c = sep then [] :: r
    else
      match r with
      | [] => [[c]]
      | h :: t => (c :: h) :: t

/-- Characters stripped by `.strip("() ")`. -/
def stripSet : List Char := ['(', ')', ' ']

/-- Python `str.strip("() ")`: drop characters of the set from both ends. -/
def pyStrip (s : String) : String :=
  ⟨((s.data.dropWhile (· ∈ stripSet)).reverse.dropWhile (· ∈ stripSet)).reverse⟩

/-- Model of the caption split at lines 142-143:
`desc = text.split("©")[0].strip("() ")` and
`copy = "©" + text.split("©")[1].strip("() ")`.  Indexing `[1]` raises
`IndexError` when the text has no `"©"`. -/
def splitCaption (s : String) : Except PyErr (String × String) :=
  match splitChar '©' s.data with
  | p0 :: p1 :: _ => .ok (pyStrip ⟨p0⟩, "©" ++ pyStrip ⟨p1⟩)
  | _ => .error .indexError

/-- The default-resolution size token `"1920x1080.jpg"` of line 139. -/
def sizeTok : List Char := ['1', '9', '2', '0', 'x', '1', '0', '8', '0', '.', 'j', 'p', 'g']

/-- The UHD replacement token `"UHD.jpg"` of line 139. -/
def uhdTok : List Char := ['U', 'H', 'D', '.', 'j', 'p', 'g']

/-- Whether the first list is a prefix of the second. -/
def isPfx : List Char → List Char → Bool
  | [], _ => true
  | _ :: _, [] => false
  | a :: as, b :: bs => a == b && isPfx as bs

/-- Whether the input starts with the size token. -/
def startsWithTok (l : List Char) : Bool := isPfx sizeTok l

/-- Left-to-right scan of Python `str.replace`: emit the replacement at
each occurrence of the size token and skip the matched region (`skip`
counts characters of a matched occurrence still to be consumed, so that
a replaced region is never rescanned, exactly the non-overlapping
semantics of `str.replace`). -/
def urlRepAux : Nat → List Char → List Char
  | _, [] => []
  | skip + 1, _ :: cs => urlRepAux skip cs
  | 0, c :: cs =>
    if startsWithTok (c :: cs) then uhdTok ++ urlRepAux 12 cs
    else c :: urlRepAux 0 cs

/-- Model of `url.replace("1920x1080.jpg", "UHD.jpg")` (line 139). -/
def urlReplaceL (l : List Char) : List Char := urlRepAux 0 l

/-- Whether the size token occurs anywhere in the input. -/
def hasTok : List Char → Bool
  | [] => false
  | c :: cs => startsWithTok (c :: cs) || hasTok cs

/-- String form of the URL upgrade step (line 139). -/
def urlUpgrade (s : String) : String := ⟨urlReplaceL s.data⟩

/-- One stored image file: its image content (identified by the URL the
bytes were retrieved from; pixel data is opaque to every claim) and the
two embedded EXIF tags `ImageDescription` and `Copyright`, absent until
stamped. -/
structure FileRec where
  content : String
  description : Option String
  copyrightTag : Option String
deriving DecidableEq, Repr

/-- A directory of files: an association list from file name to record. -/
abbrev Store := List (String × FileRec)

/-- Look a file up by name. -/
def lookupFile : Store → String → Option FileRec
  | [], _ => none
  | (k, r) :: st, n => if n = k then some r else lookupFile st n

/-- Create or overwrite a file. -/
def setFile : Store → String → FileRec → Store
  | [], n, r => [(n, r)]
  | (k, r0) :: st, n, r => if n = k then (n, r) :: st else (k, r0) :: setFile st n r

/-- Canonical feed record `{date, imageURL, title, attribution}` that the
parsing of a feed entry produces (lines 133-143). -/
structure Entry where
  date : String
  url : String
  title : String
  attribution : String
deriving DecidableEq, Repr

/-- Destination file name `f"{date}.jpg"` of an entry (line 145). -/
def destName (e : Entry) : String := e.date ++ ".jpg"

/-- File state right after `urlretrieve` (line 149): bytes written, no
EXIF tags yet. -/
def downloadedRec (e : Entry) : FileRec := ⟨e.url, none, none⟩

/-- File state after `Image.save(..., quality="keep", exif=...)`
(line 157): same image content, both tags stamped. -/
def stampedRec (e : Entry) : FileRec := ⟨e.url, some e.title, some e.attribution⟩

/-- Observable store states during the ingestion of one feed entry
(lines 145-157): if the destination exists the entry is skipped and the
store is untouched; otherwise the states are (before, after download,
after metadata stamp). -/
def ingestStates (st : Store) (e : Entry) : List Store :=
  if (lookupFile st (destName e)).isSome then [st]
  else
    [st, setFile st (destName e) (downloadedRec e),
      setFile (setFile st (destName e) (downloadedRec e)) (destName e) (stampedRec e)]

/-- Store state after the ingestion of one feed entry completes. -/
def ingestEntry (st : Store) (e : Entry) : Store := (ingestStates st e).getLastD st

/-- Model of the whole download loop (lines 128-157) over the parsed feed
entries. -/
def sync (st : Store) (es : List Entry) : Store := es.foldl ingestEntry st

/-- Model of `BingImage.title` (line 84):
`exif["0th"][piexif.ImageIFD.ImageDescription]` raises `KeyError` when
the image has no embedded description tag. -/
def imageTitle (r : FileRec) : Except PyErr String :=
  match r.description with
  | some t => .ok t
  | none => .error .keyError

/-- Model of `BingImage.copyright` (line 88):
`exif["0th"][piexif.ImageIFD.Copyright]` raises `KeyError` when the image
has no embedded copyright tag. -/
def imageCopyright (r : FileRec) : Except PyErr String :=
  match r.copyrightTag with
  | some c => .ok c
  | none => .error .keyError

/-- Whether a single file record carries both embedded tags. -/
def metaOkRec (r : FileRec) : Bool := r.description.isSome && r.copyrightTag.isSome

/-- Whether every file of the store carries its embedded metadata
("file exists implies fully valid"). -/
def metaOk : Store → Bool
  | [] => true
  | (_, r) :: st => metaOkRec r && metaOk st

/-- Filesystem state seen by the site generator: the images directory and
the thumbs directory (name to encoded bytes). -/
structure FS where
  images : Store
  thumbs : List (String × String)
deriving DecidableEq, Repr

/-- Look a thumbnail up by name. -/
def lookupThumb : List (String × String) → String → Option String
  | [], _ => none
  | (k, v) :: ts, n => if n = k then some v else lookupThumb ts n

/-- Create or overwrite a thumbnail. -/
def setThumb : List (String × String) → String → String → List (String × String)
  | [], n, v => [(n, v)]
  | (k, v0) :: ts, n, v => if n = k then (n, v) :: ts else (k, v0) :: setThumb ts n v

/-- Thumbnail file name `f"{stem}.webp"` (line 59). -/
def thumbName (stem : String) : String := stem ++ ".webp"

/-- Derived thumbnail bytes: `Image.thumbnail((480, 480))` then
`save(quality=70)`.  The pixel transform is performed by the image-codec
library, an external collaborator per the spec; here the result is an
opaque function of the source bytes. -/
def thumbEncode (content : String) : String := "webp-q70(" ++ content ++ ")"

/-- Work performed by the non-skip branch of `write_thumbnail`. -/
inductive ThumbEffect
  | decodeImage
  | resizeImage
  | encodeImage
  | writeFile
deriving DecidableEq, Repr

/-- Model of `BingImage.write_thumbnail` (lines 95-100): return
immediately when the thumbnail file exists; otherwise decode the stored
full image, resize, re-encode and write the thumbnail.  The effect list
records the work done. -/
def write_thumbnail (fs : FS) (stem : String) : Except PyErr (FS × List ThumbEffect) :=
  if (lookupThumb fs.thumbs (thumbName stem)).isSome then .ok (fs, [])
  else
    match lookupFile fs.images (stem ++ ".jpg") with
    | none => .error .fileNotFoundError
    | some r =>
      .ok ({ fs with thumbs := setThumb fs.thumbs (thumbName stem) (thumbEncode r.content) },
        [.decodeImage, .resizeImage, .encodeImage, .writeFile])

/-- One `<image>` element of the XML feed: its tag and the text of the
`startdate`, `url` and `copyright` child elements (`find(...)` returns
`None` when the child is missing, and `.text` on `None` raises
`AttributeError`). -/
structure XElem where
  tag : String
  startdate : Option String
  url : Option String
  copyrightText : Option String
deriving DecidableEq, Repr

/-- A feed document body, in one of the two formats the spec names: the
XML archive API document (a root with repeated `image` elements) or the
JSON `hp/api/model` document. -/
inductive FeedDoc
  | xmlDoc (els : List XElem)
  | jsonDoc (body : String)
deriving DecidableEq, Repr

/-- Normalization of one XML `<image>` element into the canonical record
(lines 133-143): parse `startdate` with `strptime "%Y%m%d"` and re-format
it, build the absolute URL and upgrade it to the UHD variant, and split
the combined copyright text into title and attribution. -/
def normalizeImageElem (el : XElem) : Except PyErr Entry :=
  match el.startdate with
  | none => .error .attributeError
  | some sd =>
    match parseStem sd with
    | none => .error .valueError
    | some dt =>
      let date := yearStr dt.y ++ pad2 dt.m ++ pad2 dt.d
      match el.url with
      | none => .error .attributeError
      | some u =>
        let url := urlUpgrade ("https://www.bing.com" ++ u)
        match el.copyrightText with
        | none => .error .attributeError
        | some ct =>
          match splitCaption ct with
          | .error e => .error e
          | .ok (t, a) => .ok ⟨date, url, t, a⟩

/-- Normalization of the XML document's element list: non-`image` tags
are skipped (line 130), each `image` element is normalized, and the first
failing element aborts the run. -/
def processEls : List XElem → Except PyErr (List Entry)
  | [] => .ok []
  | el :: els =>
    if el.tag = "image" then
      match normalizeImageElem el with
      | .error e => .error e
      | .ok en =>
        match processEls els with
        | .error e => .error e
        | .ok ens => .ok (en :: ens)
    else processEls els

/-- Model of the feed parse the executing script performs: the body is
passed to `xml.etree.ElementTree.fromstring` unconditionally (line 127).
An XML body parses into its elements, which are then normalized; a JSON
body (the other format the spec names, handled only by the commented-out
lines 106-123) is not well-formed XML, so `fromstring` raises
`ParseError`. -/
def parseFeedDoc : FeedDoc → Except PyErr (List Entry)
  | .xmlDoc els => processEls els
  | .jsonDoc _ => .error .parseError

/-! Helper lemmas about the store operations. -/

theorem lookupFile_setFile_self (st : Store) (n : String) (r : FileRec) :
    lookupFile (setFile st n r) n = some r := by
  induction st with
  | nil => simp [setFile, lookupFile]
  | cons kr st ih =>
    obtain ⟨k, r0⟩ := kr
    by_cases h : n = k
    · simp [setFile, lookupFile, h]
    · simp [setFile, lookupFile, h, ih]

theorem lookupFile_setFile_other (st : Store) (n m : String) (r : FileRec) (h : m ≠ n) :
    lookupFile (setFile st n r) m = lookupFile st m := by
  induction st with
  | nil => simp [setFile, lookupFile, h]
  | cons kr st ih =>
    obtain ⟨k, r0⟩ := kr
    by_cases hk : n = k
    · subst hk; simp [setFile, lookupFile, h]
    · by_cases hm : m = k
      · simp [setFile, lookupFile, hk, hm]
      · simp [setFile, lookupFile, hk, hm, ih]

theorem setFile_setFile (st : Store) (n : String) (r1 r2 : FileRec) :
    setFile (setFile st n r1) n r2 = setFile st n r2 := by
  induction st with
  | nil => simp [setFile]
  | cons kr st ih =>
    obtain ⟨k, r0⟩ := kr
    by_cases h : n = k
    · simp [setFile, h]
    · simp [setFile, h, ih]

theorem ingestEntry_eq (st : Store) (e : Entry) :
    ingestEntry st e =
      if (lookupFile st (destName e)).isSome then st
      else setFile (setFile st (destName e) (downloadedRec e)) (destName e) (stampedRec e) := by
  unfold ingestEntry ingestStates
  by_cases h : (lookupFile st (destName e)).isSome <;> simp [h, List.getLastD]

theorem ingestEntry_dest (st : Store) (e : Entry) :
    (lookupFile (ingestEntry st e) (destName e)).isSome = true := by
  rw [ingestEntry_eq]
  by_cases h : (lookupFile st (destName e)).isSome
  · simp [h]
  · simp [h, lookupFile_setFile_self]

theorem ingestEntry_mono (st : Store) (e : Entry) (n : String)
    (h : (lookupFile st n).isSome = true) :
    (lookupFile (ingestEntry st e) n).isSome = true := by
  rw [ingestEntry_eq]
  by_cases hd : (lookupFile st (destName e)).isSome
  · simpa [hd] using h
  · by_cases hn : n = destName e
    · subst hn; simp [hd, lookupFile_setFile_self]
    · simp [hd, lookupFile_setFile_other _ _ _ _ hn, h]

theorem sync_mono (es : List Entry) :
    ∀ (st : Store) (n : String), (lookupFile st n).isSome = true →
      (lookupFile (sync st es) n).isSome = true := by
  induction es with
  | nil => intro st n h; exact h
  | cons e es ih =>
    intro st n h
    exact ih (ingestEntry st e) n (ingestEntry_mono st e n h)

theorem sync_dest (es : List Entry) :
    ∀ (st : Store) (e : Entry), e ∈ es →
      (lookupFile (sync st es) (destName e)).isSome = true := by
  induction es with
  | nil => intro st e h; cases h
  | cons e0 es ih =>
    intro st e h
    rcases List.mem_cons.mp h with h | h
    · subst h
      exact sync_mono es (ingestEntry st e) (destName e) (ingestEntry_dest st e)
    · exact ih (ingestEntry st e0) e h

theorem sync_noop (es : List Entry) :
    ∀ (st : Store), (∀ e ∈ es, (lookupFile st (destName e)).isSome = true) →
      sync st es = st := by
  induction es with
  | nil => intro st _; rfl
  | cons e es ih =>
    intro st h
    have he : ingestEntry st e = st := by
      rw [ingestEntry_eq, if_pos (h e (List.mem_cons_self e es))]
    show sync (ingestEntry st e) es = st
    rw [he]
    exact ih st fun e' he' => h e' (List.mem_cons_of_mem e he')

/-- C4: a feed entry whose destination file `{date}.jpg` already exists is
skipped entirely — the store is returned unchanged, with no download and
no re-stamp — and consequently running the whole sync a second time
against the same feed leaves the store identical. -/
theorem c4_skip_and_idempotent (st : Store) (e : Entry) (es : List Entry)
    (h : (lookupFile st (destName e)).isSome = true) :
    ingestEntry st e = st ∧ sync (sync st es) es = sync st es := by
  constructor
  · rw [ingestEntry_eq, if_pos h]
  · exact sync_noop es (sync st es) fun e' he' => sync_dest es st e' he'

/-- Witness for C4 at a concrete store and feed. -/
theorem c4_skip_and_idempotent_witness :
    ingestEntry [("20240105.jpg", ⟨"https://www.bing.com/a_UHD.jpg", some "T", some "©A"⟩)]
        ⟨"20240105", "https://www.bing.com/a_UHD.jpg", "T", "©A"⟩ =
      [("20240105.jpg", ⟨"https://www.bing.com/a_UHD.jpg", some "T", some "©A"⟩)] ∧
    sync (sync [("20240105.jpg", ⟨"https://www.bing.com/a_UHD.jpg", some "T", some "©A"⟩)]
          [⟨"20240106", "https://www.bing.com/b_UHD.jpg", "U", "©B"⟩])
        [⟨"20240106", "https://www.bing.com/b_UHD.jpg", "U", "©B"⟩] =
      sync [("20240105.jpg", ⟨"https://www.bing.com/a_UHD.jpg", some "T", some "©A"⟩)]
        [⟨"20240106", "https://www.bing.com/b_UHD.jpg", "U", "©B"⟩] :=
  c4_skip_and_idempotent
    [("20240105.jpg", ⟨"https://www.bing.com/a_UHD.jpg", some "T", some "©A"⟩)]
    ⟨"20240105", "https://www.bing.com/a_UHD.jpg", "T", "©A"⟩
    [⟨"20240106", "https://www.bing.com/b_UHD.jpg", "U", "©B"⟩]
    (by decide)

theorem metaOk_setFile (st : Store) (n : String) (r : FileRec)
    (hst : metaOk st = true) (hr : metaOkRec r = true) :
    metaOk (setFile st n r) = true := by
  induction st with
  | nil => simp [setFile, metaOk, hr]
  | cons kr st ih =>
    obtain ⟨k, r0⟩ := kr
    rw [metaOk, Bool.and_eq_true] at hst
    by_cases h : n = k
    · rw [setFile, if_pos h, metaOk, Bool.and_eq_true]
      exact ⟨hr, hst.2⟩
    · rw [setFile, if_neg h, metaOk, Bool.and_eq_true]
      exact ⟨hst.1, ih hst.2⟩

/-- C5 counterexample: ingesting a fresh entry into an archive passes
through an observable intermediate state — after `urlretrieve` has
written the destination file and before `Image.save` stamps the EXIF
tags — in which the stored file exists with no embedded metadata, so the
download-then-stamp step is not atomic from a reader's view. -/
theorem c5_not_atomic_counterexample :
    lookupFile ((ingestStates [] ⟨"20240105", "https://www.bing.com/a_UHD.jpg", "T", "©A"⟩).getD 1 [])
        "20240105.jpg" =
      some ⟨"https://www.bing.com/a_UHD.jpg", none, none⟩ ∧
    metaOk ((ingestStates [] ⟨"20240105", "https://www.bing.com/a_UHD.jpg", "T", "©A"⟩).getD 1 []) =
      false := by
  constructor
  · rfl
  · decide

/-- C5 (amended): the "file exists implies metadata present" invariant
holds in the state left after the per-entry download-then-stamp step has
completed (for every entry, skipped or ingested), although it is violated
at the intermediate state between download and stamp. -/
theorem c5_completed_step_meta (st : Store) (e : Entry) (h : metaOk st = true) :
    metaOk (ingestEntry st e) = true := by
  rw [ingestEntry_eq]
  by_cases hd : (lookupFile st (destName e)).isSome
  · simpa [hd] using h
  · rw [if_neg hd, setFile_setFile]
    exact metaOk_setFile st (destName e) (stampedRec e) h rfl

/-- Witness for C5 (amended) at a concrete store and entry. -/
theorem c5_completed_step_meta_witness :
    metaOk (ingestEntry [("20231231.jpg", ⟨"https://www.bing.com/z_UHD.jpg", some "S", some "©Z"⟩)]
      ⟨"20240105", "https://www.bing.com/a_UHD.jpg", "T", "©A"⟩) = true :=
  c5_completed_step_meta
    [("20231231.jpg", ⟨"https://www.bing.com/z_UHD.jpg", some "S", some "©Z"⟩)]
    ⟨"20240105", "https://www.bing.com/a_UHD.jpg", "T", "©A"⟩ (by decide)

/-- C1: the claim says a rebuild over an archive with zero images
produces no pages and terminates normally; the code instead reaches the
final-month-page step with an empty bucket and `imgs[-1]` raises
`IndexError` (line 225), so the empty-archive rebuild aborts with an
error after producing no day and no month pages. -/
theorem c1_empty_rebuild_raises :
    rebuild [] = ⟨[], [], none, some PyErr.indexError⟩ := by decide

/-- C2: rebuilding an archive holding exactly the images dated
2024-01-05, 2024-01-20 and 2024-02-01 produces exactly one January month
page listing both January images in ascending date order and one separate
February month page; the January page's `next_img` forward link is the
2024-02-01 image, and the February page's `prev_img` back link is the
image 2024-01-20, whose month page path is the January month page. -/
theorem c2_month_grouping :
    rebuild ["20240105.jpg", "20240120.jpg", "20240201.jpg"] =
      { dayPages := [⟨2024, 1, 5⟩, ⟨2024, 1, 20⟩, ⟨2024, 2, 1⟩],
        monthPages := [
          { path := "www/2024/01/index.html", imgs := [⟨2024, 1, 5⟩, ⟨2024, 1, 20⟩],
            displayDate := "January 2024", nextImg := some ⟨2024, 2, 1⟩, prevImg := none },
          { path := "www/2024/02/index.html", imgs := [⟨2024, 2, 1⟩],
            displayDate := "February 2024", nextImg := none, prevImg := some ⟨2024, 1, 20⟩ }],
        homeImg := some ⟨2024, 2, 1⟩, err := none } ∧
    html_month_path ⟨2024, 1, 20⟩ = "www/2024/01/index.html" := by decide

/-- C3 counterexample: on the copyright text
`"(Sunset over the bay © Jane Doe)"` the caption split produces the
attribution `"©Jane Doe"` — the `"©"` glyph immediately followed by the
trimmed text, with no space — which differs from the claimed
`"© Jane Doe"`. -/
theorem c3_caption_counterexample :
    splitCaption "(Sunset over the bay © Jane Doe)" =
      Except.ok ("Sunset over the bay", "©Jane Doe") ∧
    ("©Jane Doe" : String) ≠ "© Jane Doe" := by
  exact ⟨rfl, by decide⟩

/-- C3 (amended): the caption split on
`"(Sunset over the bay © Jane Doe)"` yields the title
`"Sunset over the bay"` and the attribution `"©Jane Doe"` (the `"©"`
glyph directly followed by the trimmed text after it). -/
theorem c3_caption_split :
    splitCaption "(Sunset over the bay © Jane Doe)" =
      Except.ok ("Sunset over the bay", "©Jane Doe") := rfl

/-- C7: accessing the title or the copyright of an archived image whose
file carries no embedded metadata record raises `KeyError`
(`exif["0th"][tag]` on an empty IFD); neither access can return any
caption value, so no empty or default caption is ever silently
produced. -/
theorem c7_metadata_missing (r : FileRec)
    (h1 : r.description = none) (h2 : r.copyrightTag = none) :
    imageTitle r = Except.error PyErr.keyError ∧
    imageCopyright r = Except.error PyErr.keyError ∧
    ∀ s : String, imageTitle r ≠ Except.ok s ∧ imageCopyright r ≠ Except.ok s := by
  refine ⟨?_, ?_, ?_⟩
  · simp [imageTitle, h1]
  · simp [imageCopyright, h2]
  · intro s
    constructor
    · simp [imageTitle, h1]
    · simp [imageCopyright, h2]

/-- Witness for C7 at a concrete metadata-free file record. -/
theorem c7_metadata_missing_witness :
    imageTitle ⟨"rawbytes", none, none⟩ = Except.error PyErr.keyError ∧
    imageCopyright ⟨"rawbytes", none, none⟩ = Except.error PyErr.keyError ∧
    ∀ s : String, imageTitle ⟨"rawbytes", none, none⟩ ≠ Except.ok s ∧
      imageCopyright ⟨"rawbytes", none, none⟩ ≠ Except.ok s :=
  c7_metadata_missing ⟨"rawbytes", none, none⟩ rfl rfl

/-- C9: when an image's thumbnail file already exists,
`write_thumbnail` returns immediately: the filesystem is unchanged and no
decode, resize, re-encode or write is performed, so a re-run leaves every
pre-existing thumbnail's bytes untouched. -/
theorem c9_thumbnail_noop (fs : FS) (stem : String)
    (h : (lookupThumb fs.thumbs (thumbName stem)).isSome = true) :
    write_thumbnail fs stem = Except.ok (fs, []) := by
  simp [write_thumbnail, h]

/-- Witness for C9 at a concrete filesystem. -/
theorem c9_thumbnail_noop_witness :
    write_thumbnail ⟨[("20240105.jpg", ⟨"https://www.bing.com/a_UHD.jpg", some "T", some "©A"⟩)],
        [("20240105.webp", "oldthumbbytes")]⟩ "20240105" =
      Except.ok (⟨[("20240105.jpg", ⟨"https://www.bing.com/a_UHD.jpg", some "T", some "©A"⟩)],
        [("20240105.webp", "oldthumbbytes")]⟩, []) :=
  c9_thumbnail_noop
    ⟨[("20240105.jpg", ⟨"https://www.bing.com/a_UHD.jpg", some "T", some "©A"⟩)],
      [("20240105.webp", "oldthumbbytes")]⟩ "20240105" (by decide)

theorem urlRepAux_miss (c : Char) (cs : List Char) (h : startsWithTok (c :: cs) = false) :
    urlRepAux 0 (c :: cs) = c :: urlRepAux 0 cs := by
  simp [urlRepAux, h]

theorem urlRepAux_tok (rest : List Char) :
    urlRepAux 0 (sizeTok ++ rest) = uhdTok ++ urlRepAux 0 rest := rfl

/-- No position strictly inside `pre` starts an occurrence of the size
token in `pre ++ sizeTok ++ suf` (i.e. the displayed occurrence is the
first one). -/
def noEarlyHit (pre suf : List Char) : Bool :=
  (List.range pre.length).all fun i => !startsWithTok ((pre ++ sizeTok ++ suf).drop i)

theorem urlRepAux_clean :
    ∀ (pre suf : List Char), noEarlyHit pre suf = true →
      urlRepAux 0 (pre ++ sizeTok ++ suf) = pre ++ (uhdTok ++ urlRepAux 0 suf) := by
  intro pre
  induction pre with
  | nil => intro suf _; exact urlRepAux_tok suf
  | cons c pre ih =>
    intro suf h
    have h' : ∀ i, i < (c :: pre).length →
        startsWithTok (((c :: pre) ++ sizeTok ++ suf).drop i) = false := by
      intro i hi
      have := List.all_eq_true.mp h i (List.mem_range.mpr hi)
      simpa using this
    have h0 : startsWithTok (c :: (pre ++ sizeTok ++ suf)) = false := by
      have := h' 0 (Nat.succ_pos _)
      simpa using this
    have hrest : noEarlyHit pre suf = true := by
      apply List.all_eq_true.mpr
      intro i hi
      have hi' := List.mem_range.mp hi
      have := h' (i + 1) (Nat.succ_lt_succ hi')
      simpa using this
    calc urlRepAux 0 ((c :: pre) ++ sizeTok ++ suf)
        = c :: urlRepAux 0 (pre ++ sizeTok ++ suf) :=
          urlRepAux_miss c (pre ++ sizeTok ++ suf) h0
      _ = c :: (pre ++ (uhdTok ++ urlRepAux 0 suf)) := by rw [ih suf hrest]
      _ = (c :: pre) ++ (uhdTok ++ urlRepAux 0 suf) := rfl

theorem hasTok_unchanged :
    ∀ (l : List Char), hasTok l = false → urlRepAux 0 l = l := by
  intro l
  induction l with
  | nil => intro _; rfl
  | cons c cs ih =>
    intro h
    simp only [hasTok, Bool.or_eq_false_iff] at h
    rw [urlRepAux_miss c cs h.1, ih h.2]

/-- C8: the URL-upgrade step is exactly the substitution of the
default-resolution size token `"1920x1080.jpg"` by the UHD token
`"UHD.jpg"`: a URL containing no occurrence of the size token passes
through completely unchanged, and a URL whose first occurrence of the
size token splits it as `pre ++ sizeTok ++ suf` is rewritten to
`pre ++ uhdTok ++` (the rewritten tail). -/
theorem c8_url_upgrade (url pre suf : List Char) :
    (hasTok url = false → urlReplaceL url = url) ∧
    (noEarlyHit pre suf = true →
      urlReplaceL (pre ++ sizeTok ++ suf) = pre ++ (uhdTok ++ urlReplaceL suf)) := by
  constructor
  · intro h; exact hasTok_unchanged url h
  · intro h; exact urlRepAux_clean pre suf h

/-- Witness for C8: a token-free URL passes through unchanged, and a URL
with the size token gets the UHD token substituted. -/
theorem c8_url_upgrade_witness :
    urlReplaceL "https://www.bing.com/th?id=OHR.Ex_800x600.jpg".data =
      "https://www.bing.com/th?id=OHR.Ex_800x600.jpg".data ∧
    urlReplaceL ("https://www.bing.com/th?id=OHR.Ex_".data ++ sizeTok ++ "&rf=hp".data) =
      "https://www.bing.com/th?id=OHR.Ex_".data ++
        (uhdTok ++ urlReplaceL "&rf=hp".data) :=
  ⟨(c8_url_upgrade "https://www.bing.com/th?id=OHR.Ex_800x600.jpg".data
      "https://www.bing.com/th?id=OHR.Ex_".data "&rf=hp".data).1 (by decide),
    (c8_url_upgrade "https://www.bing.com/th?id=OHR.Ex_800x600.jpg".data
      "https://www.bing.com/th?id=OHR.Ex_".data "&rf=hp".data).2 (by decide)⟩

theorem processEls_ok :
    ∀ (els : List XElem),
      (∀ el ∈ els, el.tag = "image" → (normalizeImageElem el).toOption.isSome = true) →
      processEls els =
        Except.ok ((els.filter fun el => el.tag == "image").filterMap
          fun el => (normalizeImageElem el).toOption) := by
  intro els
  induction els with
  | nil => intro _; rfl
  | cons el els ih =>
    intro h
    have hels := ih fun el' hm ht => h el' (List.mem_cons_of_mem el hm) ht
    by_cases ht : el.tag = "image"
    · have hsome := h el (List.mem_cons_self el els) ht
      obtain ⟨en, hen⟩ : ∃ en, normalizeImageElem el = Except.ok en := by
        cases hne : normalizeImageElem el with
        | ok v => exact ⟨v, rfl⟩
        | error e => rw [hne] at hsome; simp [Except.toOption] at hsome
      rw [processEls, if_pos ht, hen, hels]
      simp [List.filter_cons, ht, List.filterMap_cons, hen, Except.toOption]
    · rw [processEls, if_neg ht, hels]
      simp [List.filter_cons, ht]

/-- C6 counterexample: the executing script hands every feed body to
`xml.etree.ElementTree.fromstring` (line 127); a body in the JSON feed
format is not well-formed XML, so the parse raises `ParseError` instead
of normalizing the entries — the JSON format (lines 106-123) survives
only as commented-out code.  So on this well-formed JSON feed body the
ingestor produces no canonical records. -/
theorem c6_json_counterexample :
    parseFeedDoc (FeedDoc.jsonDoc "\x7b\"MediaContents\": []\x7d") =
      Except.error PyErr.parseError := rfl

/-- C6 (amended): the executing ingestor supports only the XML feed
format — a JSON body makes the XML parse raise `ParseError` — and for an
XML document every `<image>` element is normalized into the canonical
`{date, imageURL, title, attribution}` record (non-`image` elements are
skipped) before any download step runs. -/
theorem c6_xml_only_normalization (body : String) (els : List XElem)
    (h : ∀ el ∈ els, el.tag = "image" → (normalizeImageElem el).toOption.isSome = true) :
    parseFeedDoc (FeedDoc.jsonDoc body) = Except.error PyErr.parseError ∧
    parseFeedDoc (FeedDoc.xmlDoc els) =
      Except.ok ((els.filter fun el => el.tag == "image").filterMap
        fun el => (normalizeImageElem el).toOption) :=
  ⟨rfl, processEls_ok els h⟩

/-- Witness for C6 (amended) at a concrete JSON body and XML document. -/
theorem c6_xml_only_normalization_witness :
    parseFeedDoc (FeedDoc.jsonDoc "\x7b\"MediaContents\": [1]\x7d") =
      Except.error PyErr.parseError ∧
    parseFeedDoc (FeedDoc.xmlDoc
        [⟨"image", some "20240105", some "/th?id=OHR.Ex_1920x1080.jpg",
          some "(Sunset over the bay © Jane Doe)"⟩, ⟨"tollfree", none, none, none⟩]) =
      Except.ok ((([⟨"image", some "20240105", some "/th?id=OHR.Ex_1920x1080.jpg",
          some "(Sunset over the bay © Jane Doe)"⟩,
          ⟨"tollfree", none, none, none⟩] : List XElem).filter
            fun el => el.tag == "image").filterMap
          fun el => (normalizeImageElem el).toOption) :=
  c6_xml_only_normalization "\x7b\"MediaContents\": [1]\x7d"
    [⟨"image", some "20240105", some "/th?id=OHR.Ex_1920x1080.jpg",
      some "(Sunset over the bay © Jane Doe)"⟩, ⟨"tollfree", none, none, none⟩]
    (by decide)

theorem rebuildLoop_clean_prefix (C : Date → Prop) :
    ∀ (pre rest : List String) (curr : Option Date) (imgs : List Date) (prev : Option Date)
      (days : List Date) (months : List MonthPage),
      (∀ p ∈ pre, ∀ d, parseStem (stemOf p) = some d → C d) →
      (∀ p ∈ pre, (parseStem (stemOf p)).isSome = true) →
      (curr.isSome = true → imgs ≠ []) →
      (∀ d ∈ imgs, C d) → (∀ d ∈ days, C d) →
      (∀ mp ∈ months, ∀ d ∈ mp.imgs, C d) →
      ∃ curr2 imgs2 prev2 days2 months2,
        rebuildLoop (pre ++ rest) curr imgs prev days months =
          rebuildLoop rest curr2 imgs2 prev2 days2 months2 ∧
        (curr2.isSome = true → imgs2 ≠ []) ∧
        (∀ d ∈ imgs2, C d) ∧ (∀ d ∈ days2, C d) ∧
        (∀ mp ∈ months2, ∀ d ∈ mp.imgs, C d) := by
  intro pre
  induction pre with
  | nil =>
    intro rest curr imgs prev days months _ _ hinv himgs hdays hmons
    exact ⟨curr, imgs, prev, days, months, rfl, hinv, himgs, hdays, hmons⟩
  | cons p pre ih =>
    intro rest curr imgs prev days months hC hq hinv himgs hdays hmons
    obtain ⟨dt, hdt⟩ := Option.isSome_iff_exists.mp (hq p (List.mem_cons_self p pre))
    have hCdt : C dt := hC p (List.mem_cons_self p pre) dt hdt
    have hC' : ∀ p' ∈ pre, ∀ d, parseStem (stemOf p') = some d → C d :=
      fun p' hm d hd => hC p' (List.mem_cons_of_mem p hm) d hd
    have hq' : ∀ p' ∈ pre, (parseStem (stemOf p')).isSome = true :=
      fun p' hm => hq p' (List.mem_cons_of_mem p hm)
    have hstep : (p :: pre) ++ rest = p :: (pre ++ rest) := rfl
    have hdays' : ∀ d ∈ days ++ [dt], C d := by
      intro d hd
      rcases List.mem_append.mp hd with h | h
      · exact hdays d h
      · rw [List.mem_singleton.mp h]; exact hCdt
    by_cases hsame : dt.y = (curr.getD dt).y ∧ dt.m = (curr.getD dt).m
    · have hunfold :
          rebuildLoop ((p :: pre) ++ rest) curr imgs prev days months =
            rebuildLoop (pre ++ rest) (some (curr.getD dt)) (imgs ++ [dt]) prev
              (days ++ [dt]) months := by
        rw [hstep, rebuildLoop, hdt]
        simp only [hsame, and_self, if_true]
      have himgs' : ∀ d ∈ imgs ++ [dt], C d := by
        intro d hd
        rcases List.mem_append.mp hd with h | h
        · exact himgs d h
        · rw [List.mem_singleton.mp h]; exact hCdt
      obtain ⟨c2, i2, p2, d2, m2, heq, h1, h2, h3, h4⟩ :=
        ih rest (some (curr.getD dt)) (imgs ++ [dt]) prev (days ++ [dt]) months
          hC' hq' (fun _ => by simp) himgs' hdays' hmons
      exact ⟨c2, i2, p2, d2, m2, hunfold.trans heq, h1, h2, h3, h4⟩
    · rcases curr with _ | c
      · exact absurd ⟨rfl, rfl⟩ hsame
      · have hne : imgs ≠ [] := hinv rfl
        simp only [Option.getD_some] at hsame
        obtain ⟨lastI, hlast⟩ : ∃ a, imgs.getLast? = some a :=
          ⟨imgs.getLast hne, List.getLast?_eq_getLast_of_ne_nil hne⟩
        have hunfold :
            rebuildLoop ((p :: pre) ++ rest) (some c) imgs prev days months =
              rebuildLoop (pre ++ rest) (some dt) [dt] (some lastI) (days ++ [dt])
                (months ++
                  [⟨html_month_path lastI, imgs, display_month lastI, some dt, prev⟩]) := by
          rw [hstep, rebuildLoop, hdt]
          simp only [Option.getD_some]
          rw [if_neg hsame, hlast]
        have himgs' : ∀ d ∈ ([dt] : List Date), C d := by
          intro d hd
          rw [List.mem_singleton.mp hd]; exact hCdt
        have hmons' : ∀ mp ∈ months ++
            [⟨html_month_path lastI, imgs, display_month lastI, some dt, prev⟩],
            ∀ d ∈ mp.imgs, C d := by
          intro mp hmp
          rcases List.mem_append.mp hmp with h | h
          · exact hmons mp h
          · rw [List.mem_singleton.mp h]
            intro d hd
            exact himgs d hd
        obtain ⟨c2, i2, p2, d2, m2, heq, h1, h2, h3, h4⟩ :=
          ih rest (some dt) [dt] (some lastI) (days ++ [dt])
            (months ++ [⟨html_month_path lastI, imgs, display_month lastI, some dt, prev⟩])
            hC' hq' (fun _ => by simp) himgs' hdays' hmons'
        exact ⟨c2, i2, p2, d2, m2, hunfold.trans heq, h1, h2, h3, h4⟩

theorem exists_first_bad (q : String → Bool) :
    ∀ (l : List String), (∃ x ∈ l, q x = false) →
      ∃ pre u post, l = pre ++ u :: post ∧ q u = false ∧ ∀ p ∈ pre, q p = true := by
  intro l
  induction l with
  | nil => rintro ⟨x, hx, _⟩; cases hx
  | cons a l ih =>
    rintro ⟨x, hx, hq⟩
    by_cases ha : q a = true
    · have hex : ∃ x ∈ l, q x = false := by
        rcases List.mem_cons.mp hx with h | h
        · subst h; rw [hq] at ha; cases ha
        · exact ⟨x, h, hq⟩
      obtain ⟨pre, u, post, hl, hu, hpre⟩ := ih hex
      refine ⟨a :: pre, u, post, by rw [hl]; rfl, hu, ?_⟩
      intro p hp
      rcases List.mem_cons.mp hp with h | h
      · subst h; exact ha
      · exact hpre p h
    · exact ⟨[], a, l, rfl, by simpa using ha,
        fun p hp => absurd hp (List.not_mem_nil p)⟩

theorem rebuildLoop_err_head (u : String) (ps : List String) (curr : Option Date)
    (imgs : List Date) (prev : Option Date) (days : List Date) (months : List MonthPage)
    (h : parseStem (stemOf u) = none) :
    rebuildLoop (u :: ps) curr imgs prev days months =
      ⟨days, months, none, some PyErr.valueError⟩ := by
  simp [rebuildLoop, h]

/-- C10: a file in the images directory whose stem is not a valid
`YYYYMMDD` date makes `BingImage.__init__`'s date parse raise
`ValueError`, aborting the whole rebuild pass: the run ends in the error,
the home page is never rendered, and every day page and every
month-page image that was written comes from a file strictly before the
foreign file in the sorted directory order — no page of any remaining
image is written. -/
theorem c10_foreign_file_aborts (files : List String) (bad : String)
    (hbad : parseStem (stemOf bad) = none) (hmem : bad ∈ files) :
    (rebuild files).err = some PyErr.valueError ∧
    (rebuild files).homeImg = none ∧
    (∀ d ∈ (rebuild files).dayPages,
      ∃ s ∈ files, parseStem (stemOf s) = some d ∧ strLe s bad = true ∧ s ≠ bad) ∧
    (∀ mp ∈ (rebuild files).monthPages, ∀ d ∈ mp.imgs,
      ∃ s ∈ files, parseStem (stemOf s) = some d ∧ strLe s bad = true ∧ s ≠ bad) := by
  classical
  set q : String → Bool := fun s => (parseStem (stemOf s)).isSome with hqdef
  have hmem' : bad ∈ pySortedNames files := by
    unfold pySortedNames
    exact (List.mem_insertionSort strLeP).mpr hmem
  have hqbad : q bad = false := by simp [hqdef, hbad]
  obtain ⟨pre, u, post, hsplit, hu, hpre⟩ :=
    exists_first_bad q (pySortedNames files) ⟨bad, hmem', hqbad⟩
  have hsort : List.Sorted strLeP (pySortedNames files) :=
    List.sorted_insertionSort strLeP files
  rw [hsplit] at hsort
  have hsort' := List.pairwise_append.mp hsort
  have hpreU : ∀ s ∈ pre, strLeP s u := fun s hs =>
    hsort'.2.2 s hs u (List.mem_cons_self u post)
  have hupost : ∀ y ∈ post, strLeP u y := (List.pairwise_cons.mp hsort'.2.1).1
  have hbadmem : bad ∈ u :: post := by
    have hb : bad ∈ pre ++ u :: post := hsplit ▸ hmem'
    rcases List.mem_append.mp hb with h | h
    · exact absurd (hpre bad h) (by simp [hqbad])
    · exact h
  have hub : strLeP u bad := by
    rcases List.mem_cons.mp hbadmem with h | h
    · subst h; exact strLe_refl bad
    · exact hupost bad h
  set C : Date → Prop := fun d =>
    ∃ s ∈ files, parseStem (stemOf s) = some d ∧ strLe s bad = true ∧ s ≠ bad with hCdef
  have hCpre : ∀ p ∈ pre, ∀ d, parseStem (stemOf p) = some d → C d := by
    intro p hp d hd
    have hpfiles : p ∈ files := by
      have hps : p ∈ pySortedNames files := by
        rw [hsplit]; exact List.mem_append.mpr (Or.inl hp)
      exact (List.mem_insertionSort strLeP).mp hps
    have hple : strLeP p bad := Trans.trans (hpreU p hp) hub
    have hpne : p ≠ bad := by
      intro h
      rw [h, hbad] at hd
      cases hd
    exact ⟨p, hpfiles, hd, hple, hpne⟩
  have hqpre : ∀ p ∈ pre, (parseStem (stemOf p)).isSome = true := by
    intro p hp
    have := hpre p hp
    simpa [hqdef] using this
  obtain ⟨c2, i2, p2, d2, m2, heq, _, _, h3, h4⟩ :=
    rebuildLoop_clean_prefix C pre (u :: post) none [] none [] []
      hCpre hqpre (fun h => by cases h) (fun d hd => absurd hd (List.not_mem_nil d))
      (fun d hd => absurd hd (List.not_mem_nil d))
      (fun mp hmp => absurd hmp (List.not_mem_nil mp))
  have hur : parseStem (stemOf u) = none := by
    have hq2 := hu
    simp [hqdef] at hq2
    exact hq2
  have hfinal : rebuild files = ⟨d2, m2, none, some PyErr.valueError⟩ := by
    unfold rebuild
    rw [hsplit, heq, rebuildLoop_err_head u post c2 i2 p2 d2 m2 hur]
  rw [hfinal]
  exact ⟨rfl, rfl, h3, h4⟩

/-- Witness for C10: the foreign file `notes.txt` placed among two valid
images aborts the rebuild. -/
theorem c10_foreign_file_aborts_witness :
    (rebuild ["20240105.jpg", "notes.txt", "20240201.jpg"]).err = some PyErr.valueError ∧
    (rebuild ["20240105.jpg", "notes.txt", "20240201.jpg"]).homeImg = none ∧
    (∀ d ∈ (rebuild ["20240105.jpg", "notes.txt", "20240201.jpg"]).dayPages,
      ∃ s ∈ ["20240105.jpg", "notes.txt", "20240201.jpg"],
        parseStem (stemOf s) = some d ∧ strLe s "notes.txt" = true ∧ s ≠ "notes.txt") ∧
    (∀ mp ∈ (rebuild ["20240105.jpg", "notes.txt", "20240201.jpg"]).monthPages,
      ∀ d ∈ mp.imgs,
      ∃ s ∈ ["20240105.jpg", "notes.txt", "20240201.jpg"],
        parseStem (stemOf s) = some d ∧ strLe s "notes.txt" = true ∧ s ≠ "notes.txt") :=
  c10_foreign_file_aborts ["20240105.jpg", "notes.txt", "20240201.jpg"] "notes.txt"
    (by decide) (by decide)
